import Mathlib

/-!
Verification development for the image-derivative build pipeline in
`tools/watermark_galleries.py` (the core component described by the spec).

The Python source is shallowly embedded: pure helpers become Lean functions
on `String` / `List Char` / `ℕ` / `ℤ` / `ℚ`; the filesystem and the image
library are abstracted into explicit oracle functions carried by an
environment record; float arithmetic (mtimes, scale factors, text metrics)
is modelled by exact rationals.  Paths are modelled verbatim as strings
(no `.`/`..` normalisation beyond what the code itself performs).
-/

namespace WG

/-! ## Basic string helpers -/

/-- Boolean membership of a string in a list (models Python `in` /
`Path.exists()` against a directory listing). -/
def memStr (x : String) : List String → Bool
  | [] => false
  | y :: ys => if x = y then true else memStr x ys

/-- Add a path to a set modelled as a duplicate-free list
(models Python `set.add`). -/
def insertOnce (x : String) (l : List String) : List String :=
  if memStr x l then l else l ++ [x]

/-- True when the second list is an initial segment of the first
(models Python `str.startswith`). -/
def charsStart : List Char → List Char → Bool
  | _, [] => true
  | [], _ :: _ => false
  | c :: cs, p :: ps => c = p && charsStart cs ps

/-- Models Python `str.startswith`. -/
def strStarts (s pat : String) : Bool := charsStart s.data pat.data

/-- Lexicographic code-point comparison on character lists; this is the
order Python's `sorted` uses on strings. -/
def charsLe : List Char → List Char → Bool
  | [], _ => true
  | _ :: _, [] => false
  | a :: as, b :: bs => if a = b then charsLe as bs else decide (a < b)

/-- String comparison used by `sorted(...)` in `generate`. -/
def strLe (a b : String) : Bool := charsLe a.data b.data

/-- The comparison `strLe` as a relation. -/
def strLeP (a b : String) : Prop := strLe a b = true

instance : DecidableRel strLeP := fun a b => Bool.decEq (strLe a b) true

/-- Models Python `sorted` on a list of strings. -/
def sortStrings (l : List String) : List String := List.insertionSort strLeP l

/-- Models Python `str.lower` (ASCII case folding, which is all the
extension tables need). -/
def strLower (s : String) : String := String.mk (s.data.map Char.toLower)

/-- Models `path_str.lstrip("/")` from `_to_repo_rel`. -/
def to_repo_rel (s : String) : String := String.mk (s.data.dropWhile (fun c => c = '/'))

/-- Split a character list on `'/'` (auxiliary for `pathName`). -/
def splitSegs : List Char → List (List Char)
  | [] => [[]]
  | c :: rest =>
    match splitSegs rest with
    | [] => [[]]
    | seg :: segs => if c = '/' then [] :: seg :: segs else (c :: seg) :: segs

/-- Models `pathlib.Path(s).name`: the last path component, with empty and
`.` segments discarded as `pathlib` does. -/
def pathName (s : String) : String :=
  match ((splitSegs s.data).filter (fun seg => !(seg.isEmpty) && seg ≠ ['.'])).getLast? with
  | some seg => String.mk seg
  | none => ""

/-- Models `rel_path.parts[:1] == ("images",)` from `generate`. -/
def firstPartIsImages (rel : String) : Bool :=
  rel = "images" || strStarts rel "images/"

/-- Split a filename into `(stem, suffix)` following `pathlib`'s rule: the
suffix starts at the last dot, provided that dot is neither the first nor
the last character of the name.  (`cs.reverse.takeWhile (· ≠ '.')` is the
run of characters after the last dot.) -/
def splitExt (cs : List Char) : List Char × List Char :=
  if 0 < (cs.reverse.takeWhile (fun c => c ≠ '.')).length ∧
      (cs.reverse.takeWhile (fun c => c ≠ '.')).length + 1 < cs.length then
    (cs.take (cs.length - (cs.reverse.takeWhile (fun c => c ≠ '.')).length - 1),
      '.' :: (cs.reverse.takeWhile (fun c => c ≠ '.')).reverse)
  else (cs, [])

/-- Models `pathlib.Path(name).stem`. -/
def fileStem (s : String) : String := String.mk (splitExt s.data).1

/-- Models `pathlib.Path(name).suffix`. -/
def fileSuffix (s : String) : String := String.mk (splitExt s.data).2

/-- Lower-cased suffix of a path's basename: models `p.suffix.lower()`. -/
def lowerSuffix (p : String) : String := strLower (fileSuffix (pathName p))

/-- Models `dst.with_suffix(".webp")` on a basename. -/
def withSuffixWebp (name : String) : String := fileStem name ++ ".webp"

/-! ## Source resolution (`_find_original_image`) -/

/-- The `SOURCE_EXTENSIONS` tuple from the source, in its fixed order. -/
def SOURCE_EXTENSIONS : List String :=
  [".jpg", ".jpeg", ".png", ".heic", ".heif", ".tif", ".tiff", ".webp", ".gif"]

/-- Models the regex `^(?P<base>.+)-(19[0-9]{2}|20[0-9]{2})$` applied to a
stem: if the stem ends in `-YYYY` with `YYYY` a year 1900–2099 and a
non-empty base precedes it, return the base. -/
def stripYearSuffix (stem : String) : Option String :=
  let cs := stem.data
  if 6 ≤ cs.length then
    match cs.drop (cs.length - 5) with
    | [d, a, b, c1, c2] =>
      if d = '-' ∧ ((a = '1' ∧ b = '9') ∨ (a = '2' ∧ b = '0')) ∧ c1.isDigit ∧ c2.isDigit then
        some (String.mk (cs.take (cs.length - 5)))
      else none
    | _ => none
  else none

/-- Models the glob pattern `f"{stem}-????{ext}"`: the filename is the stem,
a dash, any four characters, then the extension. -/
def matchesYearGlob (stem ext name : String) : Bool :=
  let sc := stem.data
  let ec := ext.data
  let nc := name.data
  nc.length = sc.length + 5 + ec.length &&
  nc.take sc.length = sc &&
  (nc.drop sc.length).take 1 = ['-'] &&
  nc.drop (sc.length + 5) = ec

/-- Shallow embedding of `_find_original_image`.  The originals directory is
a listing of filenames in directory order; `Path.exists` becomes list
membership and `Path.glob` becomes a scan of the listing. -/
def find_original_image (preferredName : String) (originals : List String) : Option String :=
  if memStr preferredName originals then some preferredName
  else
    let stem := fileStem preferredName
    match SOURCE_EXTENSIONS.findSome?
        (fun ext => if memStr (stem ++ ext) originals then some (stem ++ ext) else none) with
    | some c => some c
    | none =>
      match SOURCE_EXTENSIONS.findSome?
          (fun ext => originals.find? (fun n => matchesYearGlob stem ext n)) with
      | some c => some c
      | none =>
        match stripYearSuffix stem with
        | some base =>
          SOURCE_EXTENSIONS.findSome?
            (fun ext => if memStr (base ++ ext) originals then some (base ++ ext) else none)
        | none => none

/-- First-or-second choice on options (sequential fall-through of the
resolver's strategies). -/
def orElseO (a b : Option String) : Option String :=
  match a with
  | some x => some x
  | none => b

/-- Resolution strategy 1 of the spec: exact filename under `originals/`. -/
def resolutionExact (name : String) (originals : List String) : Option String :=
  if memStr name originals then some name else none

/-- Resolution strategy 2 of the spec: same stem with each extension from
the fixed known-extension list, in list order, first match wins. -/
def resolutionByExt (stem : String) (originals : List String) : Option String :=
  SOURCE_EXTENSIONS.findSome?
    (fun ext => if memStr (stem ++ ext) originals then some (stem ++ ext) else none)

/-- Resolution strategy 3 of the spec: glob for a year-suffixed variant
`<stem>-????<ext>` over the same extension list. -/
def resolutionYearGlob (stem : String) (originals : List String) : Option String :=
  SOURCE_EXTENSIONS.findSome?
    (fun ext => originals.find? (fun n => matchesYearGlob stem ext n))

/-- Resolution strategy 4 of the spec: if the stem ends in a year suffix,
strip it and retry the extension-list match on the base stem. -/
def resolutionStripYear (stem : String) (originals : List String) : Option String :=
  match stripYearSuffix stem with
  | some base => resolutionByExt base originals
  | none => none

/-! ## Destination choice (`_resolve_destination`) and staleness (`_should_skip`) -/

/-- Shallow embedding of `_resolve_destination`, working on the source
basename; the result is the output path relative to `out_dir`. -/
def resolve_destination (srcName : String) : String :=
  if strLower (fileSuffix srcName) = ".tif" ∨ strLower (fileSuffix srcName) = ".tiff" then
    fileStem srcName ++ ".png"
  else if strLower (fileSuffix srcName) = ".heic" ∨ strLower (fileSuffix srcName) = ".heif" then
    fileStem srcName ++ ".jpg"
  else srcName

/-- Primary output basename produced for a catalog logical name, as
`generate` computes it: resolve the source, then remap its name. -/
def primaryBasename (logicalName : String) (originals : List String) : Option String :=
  (find_original_image logicalName originals).map resolve_destination

/-- Shallow embedding of `_should_skip`.  `dstExists` models `dst.exists()`;
the `Option ℚ` mtimes model `Path.stat().st_mtime`, with `none` standing
for an `OSError` raised by `stat` (the `except OSError: return False`
branch). `dstStat` is read first, as in the source. -/
def should_skip (force : Bool) (dstExists : Bool) (dstStat srcStat : Option ℚ) : Bool :=
  if force then false
  else if !dstExists then false
  else
    match dstStat, srcStat with
    | some d, some s => decide (s ≤ d)
    | _, _ => false

/-! ## Resizing (`_resize_long_edge`) -/

/-- Python's `round` (banker's rounding, half to even), modelled on exact
rationals. -/
def pyRound (q : ℚ) : ℤ :=
  if q - ⌊q⌋ < 1/2 then ⌊q⌋
  else if 1/2 < q - ⌊q⌋ then ⌊q⌋ + 1
  else if ⌊q⌋ % 2 = 0 then ⌊q⌋ else ⌊q⌋ + 1

/-- Python's `int(...)` on a rational: truncation toward zero. -/
def truncQ (q : ℚ) : ℤ := if 0 ≤ q then ⌊q⌋ else ⌈q⌉

/-- Shallow embedding of `_resize_long_edge` on pixel dimensions; the float
`scale` is modelled as an exact rational. -/
def resize_long_edge (w h : ℕ) (maxEdge : ℤ) : ℕ × ℕ :=
  if maxEdge ≤ 0 then (w, h)
  else if ((max w h : ℕ) : ℤ) ≤ maxEdge then (w, h)
  else
    let scale : ℚ := (maxEdge : ℚ) / ((max w h : ℕ) : ℚ)
    (max 1 (pyRound ((w : ℚ) * scale)).toNat, max 1 (pyRound ((h : ℚ) * scale)).toNat)

/-! ## Watermark font fitting (`_rotated_bbox`, `_fit_font_size`) -/

/-- Shallow embedding of `_rotated_bbox`: `c` and `s` stand for
`|cos θ|` and `|sin θ|` of the rotation angle. -/
def rotated_bbox (w h c s : ℚ) : ℚ × ℚ := (w * c + h * s, w * s + h * c)

/-- The fit test inside `_fit_font_size`'s search loop.  `metrics size` is
the `(width, height)` of the text bounding box rendered at font size
`size` (abstracting `draw.textbbox` with a deterministic font). -/
def fitsAt (metrics : ℕ → ℚ × ℚ) (c s : ℚ) (maxW maxH : ℤ) (size : ℕ) : Bool :=
  let rot := rotated_bbox (metrics size).1 (metrics size).2 c s
  decide (rot.1 ≤ (maxW : ℚ) ∧ rot.2 ≤ (maxH : ℚ))

/-- The `while lo <= hi` binary search of `_fit_font_size`, written with
explicit fuel (the interval shrinks every iteration, so any fuel larger
than the initial interval length is enough). -/
def fitLoopFuel (fits : ℕ → Bool) : ℕ → ℕ → ℕ → ℕ → ℕ
  | 0, _, _, best => best
  | fuel + 1, lo, hi, best =>
    if lo ≤ hi then
      let mid := (lo + hi) / 2
      if fits mid then fitLoopFuel fits fuel (mid + 1) hi mid
      else fitLoopFuel fits fuel lo (mid - 1) best
    else best

/-- Shallow embedding of `_fit_font_size`, returning the chosen font size.
`max_w`/`max_h` use `int(...)` truncation exactly as the source does, the
search starts at `lo = 10`, `hi = max(canvas_w, canvas_h)`, and `best` is
initialised to `lo` before the loop. -/
def fit_font_size (metrics : ℕ → ℚ × ℚ) (c s : ℚ) (canvasW canvasH : ℕ)
    (marginFrac : ℚ) : ℕ :=
  let maxW := truncQ ((canvasW : ℚ) * (1 - 2 * marginFrac))
  let maxH := truncQ ((canvasH : ℚ) * (1 - 2 * marginFrac))
  let hi := max canvasW canvasH
  fitLoopFuel (fitsAt metrics c s maxW maxH) (hi + 2) 10 hi 10

/-! ## Inventory reading (`_iter_gallery_images`) -/

/-- Parsed YAML values, as far as `_iter_gallery_images` inspects them. -/
inductive YamlVal where
  | vStr : String → YamlVal
  | vDict : List (String × YamlVal) → YamlVal
  | vList : List YamlVal → YamlVal
  | vOther : YamlVal

/-- Models Python `str.strip()`: drop whitespace from both ends. -/
def stripWS (s : String) : String :=
  String.mk (((s.data.dropWhile Char.isWhitespace).reverse.dropWhile Char.isWhitespace).reverse)

/-- Python `dict.get` on an association list. -/
def lookupKV (k : String) : List (String × YamlVal) → Option YamlVal
  | [] => none
  | (k2, v) :: rest => if k = k2 then some v else lookupKV k rest

/-- Is the parsed document a list? (the `isinstance(raw, list)` check). -/
def isYList : YamlVal → Bool
  | YamlVal.vList _ => true
  | _ => false

/-- The `image` value contributed by one record: present iff the record is a
dict whose `image` key holds a string that is non-empty after stripping
(models the loop body of `_iter_gallery_images`). -/
def entryImage : YamlVal → Option String
  | YamlVal.vDict kvs =>
    match lookupKV "image" kvs with
    | some (YamlVal.vStr s) => if stripWS s = "" then none else some (stripWS s)
    | _ => none
  | _ => none

/-- The images yielded from one record list. -/
def itemsImages : List YamlVal → List String
  | [] => []
  | it :: rest =>
    match entryImage it with
    | some s => s :: itemsImages rest
    | none => itemsImages rest

/-- Shallow embedding of `_iter_gallery_images`.  A data file is `none` when
absent (the `not data_file.exists()` early return) and otherwise carries
its parsed YAML document. -/
def iter_gallery_images : Option YamlVal → List String
  | none => []
  | some (YamlVal.vList items) => itemsImages items
  | some _ => []

/-- Concatenation of the yields of all data files (the set comprehension in
`generate` before de-duplication). -/
def collectImages : List (Option YamlVal) → List String
  | [] => []
  | f :: fs => iter_gallery_images f ++ collectImages fs

/-- Models `sorted` of the set comprehension over all data files in `generate`. -/
def imagesOf (dataFiles : List (Option YamlVal)) : List String :=
  sortStrings (collectImages dataFiles).dedup

/-! ## The `generate` orchestrator -/

/-- Outcome of the per-entry `try:` block in `generate`, as the environment
determines it.
* `ok` — the block runs to completion;
* `exnEarly` — an `Exception` is raised before `written += 1` (decode,
  resize, watermark, or the primary write);
* `exnThumb` — an `Exception` is raised by the thumbnail write, after the
  primary write succeeded and the thumbnail path was recorded (only
  meaningful when thumbnails are enabled; otherwise the phase does not
  exist and the outcome is read as `ok`);
* `sysExit` — `_open_image` raises `SystemExit` (a HEIC/HEIF source whose
  decode fails with no optional decoder available); `SystemExit` does not
  derive from `Exception`, so the `except Exception` handler does not
  catch it. -/
inductive BuildOutcome where
  | ok
  | exnEarly
  | exnThumb
  | sysExit
deriving DecidableEq

/-- The run parameters of `generate` that the claims exercise. -/
structure GenArgs where
  force : Bool
  makeWebp : Bool
  makeThumbs : Bool
  clean : Bool

/-- Environment oracles abstracting the filesystem and the image library.
All output-tree paths are relative to `out_dir`. -/
structure GenEnv where
  /-- Listing of `images/originals/`, in directory order. -/
  originals : List String
  /-- Existence of `REPO_ROOT / rel` for entries outside `images/`. -/
  rootExists : String → Bool
  /-- Existence test under `out_dir` (`expected.exists()` and the
  `dst.exists()` check inside `_should_skip`). -/
  outExists : String → Bool
  /-- Result of `dst.stat().st_mtime >= src.stat().st_mtime` for
  `(src, dst)`, with a `stat` failure folded in as `false`, as
  `_should_skip` does. -/
  mtimeGe : String → String → Bool
  /-- Outcome of the per-entry `try:` block, keyed by the entry's
  repo-relative catalog path. -/
  build : String → BuildOutcome
  /-- Files found by `sorted(out_dir.rglob("*"))` at cleaning time
  (regular files only, paths relative to `out_dir`). -/
  finalTree : List String

/-- Models `_should_skip(src, dst, force)` as `generate` calls it, against
the environment oracles. -/
def genShouldSkip (env : GenEnv) (force : Bool) (srcName dst : String) : Bool :=
  if force then false
  else if !(env.outExists dst) then false
  else env.mtimeGe srcName dst

/-- Models the check `dst.suffix.lower() in (".jpg", ".jpeg", ".png")`. -/
def webpEligible (dstName : String) : Bool :=
  lowerSuffix dstName = ".jpg" || lowerSuffix dstName = ".jpeg" || lowerSuffix dstName = ".png"

/-- What the loop body of `generate` decides to do with one entry. -/
inductive EntryStep where
  /-- source missing, no usable pre-existing output: `missing += 1`. -/
  | missing
  /-- source missing under `images/`, not forced, and an output with the
  catalog basename already exists: `skipped += 1`, nothing recorded. -/
  | skipExisting
  /-- resolved, but the entry is not under `images/`: `skipped += 1`. -/
  | skipNonImages
  /-- destination recorded as expected, then `_should_skip` said the
  output is current: `skipped += 1`. -/
  | skipFresh (dst : String)
  /-- destination recorded as expected, then the `try:` block runs. -/
  | build (dst : String) (o : BuildOutcome)

/-- The branch structure of `generate`'s per-entry loop body, up to the
`try:` block. -/
def classifyEntry (env : GenEnv) (args : GenArgs) (imagePath : String) : EntryStep :=
  let rel := to_repo_rel imagePath
  let srcOpt : Option String :=
    if firstPartIsImages rel then find_original_image (pathName rel) env.originals
    else if env.rootExists rel then some rel else none
  match srcOpt with
  | none =>
    if strStarts rel "images/" && !args.force && env.outExists (pathName rel) then
      EntryStep.skipExisting
    else EntryStep.missing
  | some srcName =>
    if !(strStarts rel "images/") then EntryStep.skipNonImages
    else
      let dst := resolve_destination srcName
      if genShouldSkip env args.force srcName dst then EntryStep.skipFresh dst
      else EntryStep.build dst (env.build rel)

/-- Mutable per-run state of `generate`'s loop. -/
structure GenState where
  written : ℕ
  skipped : ℕ
  missing : ℕ
  failed : ℕ
  expected : List String
  aborted : Bool
deriving DecidableEq

/-- State after a successful primary write: `written += 1`, the secondary
and thumbnail paths are recorded per the flags, and when `thumbFailed`
the thumbnail write raised after its path was recorded (`failed += 1`,
no thumbnail secondary path). -/
def buildSuccessState (args : GenArgs) (st : GenState) (dst : String)
    (thumbFailed : Bool) : GenState :=
  let st1 := { st with written := st.written + 1 }
  let st2 :=
    if args.makeWebp && webpEligible dst then
      { st1 with expected := insertOnce (withSuffixWebp dst) st1.expected }
    else st1
  if args.makeThumbs then
    let st3 := { st2 with expected := insertOnce ("thumb/" ++ dst) st2.expected }
    if thumbFailed then { st3 with failed := st3.failed + 1 }
    else if args.makeWebp && webpEligible dst then
      { st3 with expected := insertOnce ("thumb/" ++ withSuffixWebp dst) st3.expected }
    else st3
  else st2

/-- Effect of one classified entry on the run state. -/
def applyStep (args : GenArgs) (st : GenState) : EntryStep → GenState
  | EntryStep.missing => { st with missing := st.missing + 1 }
  | EntryStep.skipExisting => { st with skipped := st.skipped + 1 }
  | EntryStep.skipNonImages => { st with skipped := st.skipped + 1 }
  | EntryStep.skipFresh dst =>
    { st with skipped := st.skipped + 1, expected := insertOnce dst st.expected }
  | EntryStep.build dst o =>
    let st1 := { st with expected := insertOnce dst st.expected }
    match o with
    | BuildOutcome.sysExit => { st1 with aborted := true }
    | BuildOutcome.exnEarly => { st1 with failed := st1.failed + 1 }
    | BuildOutcome.ok => buildSuccessState args st1 dst false
    | BuildOutcome.exnThumb => buildSuccessState args st1 dst args.makeThumbs

/-- One iteration of `generate`'s loop; once `SystemExit` has escaped,
nothing further runs. -/
def processEntry (env : GenEnv) (args : GenArgs) (st : GenState) (imagePath : String) :
    GenState :=
  if st.aborted then st else applyStep args st (classifyEntry env args imagePath)

/-- The extension set the orphan-cleaning step recognises
(`{".jpg", ".jpeg", ".png", ".webp", ".gif"}` in `generate`). -/
def CLEAN_EXTENSIONS : List String := [".jpg", ".jpeg", ".png", ".webp", ".gif"]

/-- Models the suffix test of the cleaning loop. -/
def isCleanExt (p : String) : Bool := memStr (lowerSuffix p) CLEAN_EXTENSIONS

/-- The initial run state. -/
def initState : GenState :=
  { written := 0, skipped := 0, missing := 0, failed := 0, expected := [], aborted := false }

/-- Result of a `generate` run.  `completed = false` models the
`SystemExit` from `_open_image` propagating out of `generate` (the
summary line, cleaning, and build marker never run; the interpreter
exits with status 1). -/
structure RunResult where
  written : ℕ
  skipped : ℕ
  missing : ℕ
  failed : ℕ
  expected : List String
  deleted : List String
  completed : Bool
  exitCode : ℕ
deriving DecidableEq

/-- The tail of `generate` after the per-entry loop: if `SystemExit`
escaped, nothing further runs (summary, cleaning and marker are skipped
and the interpreter exits with status 1); otherwise the summary is
printed, the orphan-cleaning pass deletes unexpected image files when
`clean` is set, and the exit status reflects the `failed` counter. -/
def mkResult (args : GenArgs) (env : GenEnv) (st : GenState) : RunResult :=
  if st.aborted then
    { written := st.written, skipped := st.skipped, missing := st.missing,
      failed := st.failed, expected := st.expected, deleted := [],
      completed := false, exitCode := 1 }
  else
    { written := st.written, skipped := st.skipped, missing := st.missing,
      failed := st.failed, expected := st.expected,
      deleted :=
        if args.clean then
          (sortStrings env.finalTree).filter
            (fun p => isCleanExt p && !(memStr p st.expected))
        else [],
      completed := true, exitCode := if st.failed = 0 then 0 else 1 }

/-- Shallow embedding of `generate`: inventory, per-entry loop, then the
orphan-cleaning pass over the output tree.  `deleted` is the list of
paths the cleaning loop unlinks. -/
def generate (env : GenEnv) (args : GenArgs) (dataFiles : List (Option YamlVal)) :
    RunResult :=
  if (imagesOf dataFiles).isEmpty then
    { written := 0, skipped := 0, missing := 0, failed := 0, expected := [],
      deleted := [], completed := true, exitCode := 0 }
  else
    mkResult args env ((imagesOf dataFiles).foldl (processEntry env args) initState)

/-- Does a classified entry increment the `failed` counter? -/
def stepFails (args : GenArgs) : EntryStep → Bool
  | EntryStep.build _ BuildOutcome.exnEarly => true
  | EntryStep.build _ BuildOutcome.exnThumb => args.makeThumbs
  | _ => false

/-- Does processing the given catalog path increment the `failed` counter? -/
def entryFails (env : GenEnv) (args : GenArgs) (imagePath : String) : Bool :=
  stepFails args (classifyEntry env args imagePath)

/-! ## Concrete fixtures used by witnesses and counterexamples -/

/-- A run over one HEIC entry whose decode fails with no optional decoder
available: `_open_image` raises `SystemExit`. -/
def envHeicExit : GenEnv :=
  { originals := ["foo.heic"], rootExists := fun _ => false, outExists := fun _ => false,
    mtimeGe := fun _ _ => false, build := fun _ => BuildOutcome.sysExit, finalTree := [] }

/-- The same run, but the per-entry failure is an ordinary `Exception`. -/
def envHeicExn : GenEnv := { envHeicExit with build := fun _ => BuildOutcome.exnEarly }

/-- A catalog consisting of the single entry `images/foo.heic`. -/
def dfHeic : List (Option YamlVal) :=
  [some (YamlVal.vList [YamlVal.vDict [("image", YamlVal.vStr "images/foo.heic")]])]

/-- Default-flavoured run parameters (no `--force`, WebP and thumbnails on,
no `--clean`). -/
def argsStd : GenArgs := { force := false, makeWebp := true, makeThumbs := true, clean := false }

/-- Run parameters with `--clean` set and the optional outputs off. -/
def argsClean : GenArgs := { force := false, makeWebp := false, makeThumbs := false, clean := true }

/-- An output tree holding an unreferenced image and a non-image file. -/
def envOrphan : GenEnv :=
  { originals := [], rootExists := fun _ => false, outExists := fun _ => false,
    mtimeGe := fun _ _ => false, build := fun _ => BuildOutcome.ok,
    finalTree := ["keep.txt", "orphan.jpg"] }

/-- A catalog whose single entry has no source anywhere. -/
def dfMissing : List (Option YamlVal) :=
  [some (YamlVal.vList [YamlVal.vDict [("image", YamlVal.vStr "images/x.jpg")]])]

/-- An environment where the catalog entry `images/stale.jpg` has no source
but `out_dir/stale.jpg` is a pre-existing output, still present at
cleaning time. -/
def envStale : GenEnv :=
  { originals := [], rootExists := fun _ => false,
    outExists := fun p => decide (p = "stale.jpg"),
    mtimeGe := fun _ _ => false, build := fun _ => BuildOutcome.ok,
    finalTree := ["stale.jpg"] }

/-- A catalog consisting of the single entry `images/stale.jpg`. -/
def dfStale : List (Option YamlVal) :=
  [some (YamlVal.vList [YamlVal.vDict [("image", YamlVal.vStr "images/stale.jpg")]])]

/-- An empty environment for inventory-level witnesses. -/
def envInv : GenEnv :=
  { originals := [], rootExists := fun _ => false, outExists := fun _ => false,
    mtimeGe := fun _ _ => false, build := fun _ => BuildOutcome.ok, finalTree := [] }

/-- Text metrics growing 10 pixels of width per font-size point (a long
watermark text), as measured by the abstracted renderer. -/
def cxMetrics : ℕ → ℚ × ℚ := fun n => ((10 * n : ℕ), (n : ℕ))

/-- Text metrics of a short square text: width and height equal the size. -/
def sqMetrics : ℕ → ℚ × ℚ := fun n => ((n : ℕ), (n : ℕ))

/-! ## Helper lemmas: strings, membership, sorting -/

theorem memStr_iff {x : String} : ∀ {l : List String}, memStr x l = true ↔ x ∈ l
  | [] => by simp [memStr]
  | y :: ys => by
    by_cases h : x = y
    · subst h; simp [memStr]
    · simp [memStr, h, memStr_iff (l := ys)]

theorem memStr_eq_false {x : String} {l : List String} (h : x ∉ l) : memStr x l = false := by
  cases hm : memStr x l
  · rfl
  · exact absurd (memStr_iff.mp hm) h

theorem charsLe_total : ∀ as bs : List Char, charsLe as bs = true ∨ charsLe bs as = true
  | [], _ => Or.inl rfl
  | _ :: _, [] => Or.inr rfl
  | a :: as, b :: bs => by
    by_cases hab : a = b
    · subst hab
      simpa [charsLe] using charsLe_total as bs
    · rcases lt_or_gt_of_ne hab with h | h
      · exact Or.inl (by simp [charsLe, hab, h])
      · exact Or.inr (by simp [charsLe, Ne.symm hab, h])

theorem charsLe_trans :
    ∀ as bs cs : List Char,
      charsLe as bs = true → charsLe bs cs = true → charsLe as cs = true
  | [], _, _ => by intro _ _; rfl
  | a :: as, [], _ => by intro h _; simp [charsLe] at h
  | a :: as, b :: bs, [] => by intro _ h; simp [charsLe] at h
  | a :: as, b :: bs, c :: cs => by
    intro h1 h2
    by_cases hab : a = b <;> by_cases hbc : b = c
    · subst hab; subst hbc
      simp only [charsLe, if_pos rfl] at h1 h2 ⊢
      exact charsLe_trans as bs cs h1 h2
    · subst hab
      simp only [charsLe, if_pos rfl, if_neg hbc] at h2 ⊢
      exact h2
    · subst hbc
      simp only [charsLe, if_neg hab] at h1 ⊢
      exact h1
    · simp only [charsLe, if_neg hab, if_neg hbc] at h1 h2
      have h1' : a < b := of_decide_eq_true h1
      have h2' : b < c := of_decide_eq_true h2
      have hac : a < c := lt_trans h1' h2'
      simp [charsLe, ne_of_lt hac, hac]

instance : IsTotal String strLeP :=
  ⟨fun a b => charsLe_total a.data b.data⟩

instance : IsTrans String strLeP :=
  ⟨fun a b c h1 h2 => charsLe_trans a.data b.data c.data h1 h2⟩

theorem mem_sortStrings {x : String} {l : List String} : x ∈ sortStrings l ↔ x ∈ l :=
  (List.perm_insertionSort strLeP l).mem_iff

theorem sortStrings_sorted (l : List String) : (sortStrings l).Pairwise strLeP :=
  List.sorted_insertionSort strLeP l

theorem sortStrings_nodup {l : List String} (h : l.Nodup) : (sortStrings l).Nodup :=
  (List.perm_insertionSort strLeP l).nodup_iff.mpr h

theorem mem_collectImages {s : String} :
    ∀ (df : List (Option YamlVal)),
      s ∈ collectImages df ↔ ∃ f ∈ df, s ∈ iter_gallery_images f
  | [] => by simp [collectImages]
  | f :: fs => by
    simp [collectImages, List.mem_append, mem_collectImages fs]

theorem mem_imagesOf {s : String} {df : List (Option YamlVal)} :
    s ∈ imagesOf df ↔ s ∈ collectImages df := by
  unfold imagesOf
  rw [mem_sortStrings, List.mem_dedup]

theorem mem_itemsImages {s : String} :
    ∀ (items : List YamlVal),
      s ∈ itemsImages items ↔ ∃ it ∈ items, entryImage it = some s
  | [] => by simp [itemsImages]
  | it :: rest => by
    cases h : entryImage it with
    | none =>
      simp only [itemsImages, h, List.mem_cons]
      rw [mem_itemsImages rest]
      constructor
      · rintro ⟨x, hx, he⟩
        exact ⟨x, Or.inr hx, he⟩
      · rintro ⟨x, hx | hx, he⟩
        · subst hx
          rw [h] at he
          exact absurd he (by simp)
        · exact ⟨x, hx, he⟩
    | some v =>
      simp only [itemsImages, h, List.mem_cons]
      constructor
      · rintro (rfl | hs)
        · exact ⟨it, Or.inl rfl, h⟩
        · obtain ⟨x, hx, he⟩ := (mem_itemsImages rest).mp hs
          exact ⟨x, Or.inr hx, he⟩
      · rintro ⟨x, hx | hx, he⟩
        · subst hx
          rw [h] at he
          exact Or.inl (Option.some_injective _ he).symm
        · exact Or.inr ((mem_itemsImages rest).mpr ⟨x, hx, he⟩)

/-! ## Helper lemmas: stems and suffixes -/

theorem splitExt_append_ext3 (cs : List Char) (h : cs ≠ []) (a b c : Char)
    (ha : a ≠ '.') (hb : b ≠ '.') (hc : c ≠ '.') :
    splitExt (cs ++ ['.', a, b, c]) = (cs, ['.', a, b, c]) := by
  have hlen : (cs ++ ['.', a, b, c]).length = cs.length + 4 := by simp
  have hrev : (cs ++ ['.', a, b, c]).reverse = c :: b :: a :: '.' :: cs.reverse := by
    simp
  have hafter :
      (cs ++ ['.', a, b, c]).reverse.takeWhile (fun x => x ≠ '.') = [c, b, a] := by
    rw [hrev]
    simp [List.takeWhile_cons, ha, hb, hc]
  have hpos : 0 < cs.length := List.length_pos.mpr h
  unfold splitExt
  rw [hafter, hlen]
  have hcond : 0 < ([c, b, a] : List Char).length ∧
      ([c, b, a] : List Char).length + 1 < cs.length + 4 := by
    simp
    omega
  rw [if_pos hcond]
  have htake : cs.length + 4 - ([c, b, a] : List Char).length - 1 = cs.length := by
    simp
  rw [htake, List.take_left]
  norm_num

theorem mk_eq_empty_iff {cs : List Char} : String.mk cs = "" ↔ cs = [] := by
  constructor
  · intro h
    have : (String.mk cs).data = ("" : String).data := by rw [h]
    simpa using this
  · intro h
    rw [h]

theorem fileStem_ne_empty {s : String} (h : fileSuffix s ≠ "") : fileStem s ≠ "" := by
  unfold fileSuffix at h
  unfold fileStem
  by_cases hc : 0 < (s.data.reverse.takeWhile (fun c => c ≠ '.')).length ∧
      (s.data.reverse.takeWhile (fun c => c ≠ '.')).length + 1 < s.data.length
  · unfold splitExt
    rw [if_pos hc]
    intro habs
    have hnil := mk_eq_empty_iff.mp habs
    have hlen := congrArg List.length hnil
    rw [List.length_take] at hlen
    simp only [List.length_nil] at hlen
    omega
  · exfalso
    apply h
    unfold splitExt
    rw [if_neg hc]

theorem data_append (s t : String) : (s ++ t).data = s.data ++ t.data := by
  cases s
  cases t
  rfl

theorem fileSuffix_stem_png {stem : String} (h : stem ≠ "") :
    fileSuffix (stem ++ ".png") = ".png" := by
  unfold fileSuffix
  rw [data_append]
  have hd : stem.data ≠ [] := by
    intro habs
    apply h
    cases stem
    simpa [mk_eq_empty_iff] using habs
  have : (".png" : String).data = ['.', 'p', 'n', 'g'] := rfl
  rw [this, splitExt_append_ext3 stem.data hd 'p' 'n' 'g' (by decide) (by decide) (by decide)]

theorem fileSuffix_stem_jpg {stem : String} (h : stem ≠ "") :
    fileSuffix (stem ++ ".jpg") = ".jpg" := by
  unfold fileSuffix
  rw [data_append]
  have hd : stem.data ≠ [] := by
    intro habs
    apply h
    cases stem
    simpa [mk_eq_empty_iff] using habs
  have : (".jpg" : String).data = ['.', 'j', 'p', 'g'] := rfl
  rw [this, splitExt_append_ext3 stem.data hd 'j' 'p' 'g' (by decide) (by decide) (by decide)]

theorem strLower_empty : strLower "" = "" := rfl

/-! ## Helper lemmas: rounding and truncation -/

theorem pyRound_le {q : ℚ} {n : ℤ} (h : q ≤ (n : ℚ)) : pyRound q ≤ n := by
  have hf : ⌊q⌋ ≤ n := by
    calc ⌊q⌋ ≤ ⌊(n : ℚ)⌋ := Int.floor_le_floor h
    _ = n := Int.floor_intCast n
  have hq : (⌊q⌋ : ℚ) ≤ q := Int.floor_le q
  unfold pyRound
  split_ifs with h1 h2 h3
  · exact hf
  · have hlt : (⌊q⌋ : ℚ) < q := by linarith
    have : (⌊q⌋ : ℚ) < (n : ℚ) := lt_of_lt_of_le hlt h
    have : ⌊q⌋ < n := by exact_mod_cast this
    omega
  · exact hf
  · have hlt : (⌊q⌋ : ℚ) < q := by linarith
    have : (⌊q⌋ : ℚ) < (n : ℚ) := lt_of_lt_of_le hlt h
    have : ⌊q⌋ < n := by exact_mod_cast this
    omega

theorem pyRound_nonneg {q : ℚ} (h : 0 ≤ q) : 0 ≤ pyRound q := by
  have hf : 0 ≤ ⌊q⌋ := Int.floor_nonneg.mpr h
  unfold pyRound
  split_ifs <;> omega

theorem floor_le_pyRound (q : ℚ) : ⌊q⌋ ≤ pyRound q := by
  unfold pyRound
  split_ifs <;> omega

theorem pyRound_sub_abs (q : ℚ) : |(pyRound q : ℚ) - q| ≤ 1 / 2 := by
  have h0 : (⌊q⌋ : ℚ) ≤ q := Int.floor_le q
  have h1 : q < (⌊q⌋ : ℚ) + 1 := Int.lt_floor_add_one q
  unfold pyRound
  split_ifs with a b c <;> rw [abs_le] <;> constructor <;> push_cast <;> linarith

theorem pyRound_intCast (n : ℤ) : pyRound ((n : ℚ)) = n := by
  unfold pyRound
  have hf : ⌊(n : ℚ)⌋ = n := Int.floor_intCast n
  rw [hf]
  rw [if_pos (by norm_num)]

theorem clampRound_le {x : ℚ} {n : ℤ} (hx0 : 0 ≤ x) (hxn : x ≤ (n : ℚ)) (hn : 1 ≤ n) :
    ((max 1 (pyRound x).toNat : ℕ) : ℤ) ≤ n := by
  have h1 : pyRound x ≤ n := pyRound_le hxn
  have h2 : 0 ≤ pyRound x := pyRound_nonneg hx0
  have h3 : ((pyRound x).toNat : ℤ) = pyRound x := Int.toNat_of_nonneg h2
  push_cast
  omega

theorem clampRound_close {x : ℚ} (hx0 : 0 ≤ x) :
    |((max 1 (pyRound x).toNat : ℕ) : ℚ) - x| ≤ 1 := by
  have h2 : 0 ≤ pyRound x := pyRound_nonneg hx0
  by_cases h : pyRound x = 0
  · have hfl : ⌊x⌋ ≤ 0 := by
      have := floor_le_pyRound x
      omega
    have hx1 : x < 1 := by
      have := Int.lt_floor_add_one x
      have hc : ((⌊x⌋ : ℤ) : ℚ) ≤ 0 := by exact_mod_cast hfl
      linarith
    rw [h]
    norm_num
    rw [abs_le]
    constructor <;> linarith
  · have h1 : 1 ≤ pyRound x := by omega
    have h1n : 1 ≤ (pyRound x).toNat := by omega
    have hmax : max 1 (pyRound x).toNat = (pyRound x).toNat := max_eq_right h1n
    have hcast : (((pyRound x).toNat : ℕ) : ℚ) = ((pyRound x : ℤ) : ℚ) := by
      have h3 : ((pyRound x).toNat : ℤ) = pyRound x := Int.toNat_of_nonneg h2
      exact_mod_cast h3
    rw [hmax, hcast]
    calc |((pyRound x : ℤ) : ℚ) - x| ≤ 1 / 2 := pyRound_sub_abs x
    _ ≤ 1 := by norm_num

theorem truncQ_le_self {x : ℚ} (hx : 0 ≤ x) : (truncQ x : ℚ) ≤ x := by
  unfold truncQ
  rw [if_pos hx]
  exact Int.floor_le x

/-! ## Helper lemmas: the font-fitting loop -/

theorem fitLoopFuel_fits (fits : ℕ → Bool) :
    ∀ (fuel lo hi best : ℕ), fits best = true →
      fits (fitLoopFuel fits fuel lo hi best) = true := by
  intro fuel
  induction fuel with
  | zero => intro lo hi best h; exact h
  | succ n ih =>
    intro lo hi best h
    unfold fitLoopFuel
    by_cases hlh : lo ≤ hi
    · rw [if_pos hlh]
      by_cases hf : fits ((lo + hi) / 2) = true
      · simp only [hf, if_true]
        exact ih _ _ _ hf
      · simp only [hf, if_false]
        exact ih _ _ _ h
    · rw [if_neg hlh]
      exact h

/-! ## Helper lemmas: the per-entry loop of `generate` -/

theorem buildSuccess_aborted (args : GenArgs) (st : GenState) (dst : String) (tf : Bool) :
    (buildSuccessState args st dst tf).aborted = st.aborted := by
  simp only [buildSuccessState]
  split_ifs <;> rfl

theorem buildSuccess_failed (args : GenArgs) (st : GenState) (dst : String) (tf : Bool) :
    (buildSuccessState args st dst tf).failed
      = st.failed + (if args.makeThumbs && tf then 1 else 0) := by
  simp only [buildSuccessState]
  split_ifs <;> simp_all

theorem applyStep_aborted (args : GenArgs) (st : GenState) (step : EntryStep)
    (h : ∀ d, step ≠ EntryStep.build d BuildOutcome.sysExit) :
    (applyStep args st step).aborted = st.aborted := by
  cases step with
  | missing => rfl
  | skipExisting => rfl
  | skipNonImages => rfl
  | skipFresh d => rfl
  | build d o =>
    cases o with
    | ok => simp [applyStep, buildSuccess_aborted]
    | exnEarly => rfl
    | exnThumb => simp [applyStep, buildSuccess_aborted]
    | sysExit => exact absurd rfl (h d)

theorem applyStep_failed (args : GenArgs) (st : GenState) (step : EntryStep) :
    (applyStep args st step).failed
      = st.failed + (if stepFails args step then 1 else 0) := by
  cases step with
  | missing => rfl
  | skipExisting => rfl
  | skipNonImages => rfl
  | skipFresh d => rfl
  | build d o =>
    cases o with
    | ok => simp [applyStep, stepFails, buildSuccess_failed]
    | exnEarly => simp [applyStep, stepFails]
    | exnThumb =>
      simp only [applyStep, stepFails, buildSuccess_failed, Bool.and_self]
    | sysExit => simp [applyStep, stepFails]

theorem classify_build_outcome {env : GenEnv} {args : GenArgs} {p d : String}
    {o : BuildOutcome} (h : classifyEntry env args p = EntryStep.build d o) :
    o = env.build (to_repo_rel p) := by
  simp only [classifyEntry] at h
  split at h
  · split at h <;> simp_all
  · split at h
    · simp_all
    · split at h
      · simp_all
      · injection h with h1 h2
        exact h2.symm

theorem foldl_aborted_failed (env : GenEnv) (args : GenArgs)
    (hs : ∀ r, env.build r ≠ BuildOutcome.sysExit) :
    ∀ (l : List String) (st : GenState), st.aborted = false →
      ((l.foldl (processEntry env args) st).aborted = false ∧
        (l.foldl (processEntry env args) st).failed
          = st.failed + l.countP (entryFails env args)) := by
  intro l
  induction l with
  | nil =>
    intro st h
    refine ⟨h, ?_⟩
    simp
  | cons p rest ih =>
    intro st h
    have hstep : processEntry env args st p
        = applyStep args st (classifyEntry env args p) := by
      simp [processEntry, h]
    have hnotsys : ∀ d, classifyEntry env args p ≠ EntryStep.build d BuildOutcome.sysExit := by
      intro d habs
      exact hs (to_repo_rel p) ((classify_build_outcome habs).symm)
    have ha : (applyStep args st (classifyEntry env args p)).aborted = st.aborted :=
      applyStep_aborted _ _ _ hnotsys
    have hf := applyStep_failed args st (classifyEntry env args p)
    rw [List.foldl_cons, hstep]
    obtain ⟨ih1, ih2⟩ := ih (applyStep args st (classifyEntry env args p)) (by rw [ha, h])
    refine ⟨ih1, ?_⟩
    rw [ih2, hf, List.countP_cons]
    unfold entryFails
    cases hcf : stepFails args (classifyEntry env args p)
    · simp [hcf]
    · simp [hcf]
      omega

/-! ## Claim theorems -/

/-- C4: the staleness decision of `_should_skip` regenerates (returns
`false`, i.e. is stale) exactly when `force` is set, or the destination
does not exist, or reading either file's metadata fails, or the
destination's modification time is older than the source's; it skips
only when the destination exists, both `stat` calls succeed, and the
destination is at least as new as the source. -/
theorem should_skip_stale_iff (force dstExists : Bool) (dstStat srcStat : Option ℚ) :
    should_skip force dstExists dstStat srcStat = false ↔
      (force = true ∨ dstExists = false ∨ dstStat = none ∨ srcStat = none ∨
        ∃ d s, dstStat = some d ∧ srcStat = some s ∧ d < s) := by
  cases force
  · cases dstExists
    · simp [should_skip]
    · cases dstStat with
      | none => simp [should_skip]
      | some d =>
        cases srcStat with
        | none => simp [should_skip]
        | some s => simp [should_skip, not_le]
  · simp [should_skip]

/-- C5: `_find_original_image` tries its resolution strategies in exactly
the priority order (1) exact filename, (2) stem with each known extension
in the fixed list order (first match wins), (3) a `<stem>-????<ext>` glob
over the same extension list, (4) year-suffix stripping followed by the
extension-list retry; when every strategy fails the result is `none` (a
no-result value), never an exception. -/
theorem find_original_image_strategy_order (name : String) (originals : List String) :
    find_original_image name originals =
      orElseO (resolutionExact name originals)
        (orElseO (resolutionByExt (fileStem name) originals)
          (orElseO (resolutionYearGlob (fileStem name) originals)
            (resolutionStripYear (fileStem name) originals))) := by
  unfold find_original_image orElseO resolutionExact resolutionByExt resolutionYearGlob
    resolutionStripYear
  by_cases h : memStr name originals = true
  · rw [if_pos h, if_pos h]
  · rw [if_neg h, if_neg h]
    cases h2 : (SOURCE_EXTENSIONS.findSome? fun ext =>
        if memStr (fileStem name ++ ext) originals then some (fileStem name ++ ext)
        else none) with
    | some c => simp [h2]
    | none =>
      cases h3 : (SOURCE_EXTENSIONS.findSome? fun ext =>
          originals.find? fun n => matchesYearGlob (fileStem name) ext n) with
      | some c => simp [h2, h3]
      | none =>
        cases h4 : stripYearSuffix (fileStem name) with
        | some base => simp [h2, h3, h4, resolutionByExt]
        | none => simp [h2, h3, h4]

/-- C6: the primary output name of `_resolve_destination` is determined by
the (case-insensitively compared) source extension: `.tif`/`.tiff` map to
`.png`, `.heic`/`.heif` map to `.jpg`, and every other name is kept
unchanged. -/
theorem resolve_destination_remap (name : String) :
    ((strLower (fileSuffix name) = ".tif" ∨ strLower (fileSuffix name) = ".tiff") →
      resolve_destination name = fileStem name ++ ".png" ∧
      fileSuffix (resolve_destination name) = ".png") ∧
    ((strLower (fileSuffix name) = ".heic" ∨ strLower (fileSuffix name) = ".heif") →
      resolve_destination name = fileStem name ++ ".jpg" ∧
      fileSuffix (resolve_destination name) = ".jpg") ∧
    ((strLower (fileSuffix name) ≠ ".tif" ∧ strLower (fileSuffix name) ≠ ".tiff" ∧
      strLower (fileSuffix name) ≠ ".heic" ∧ strLower (fileSuffix name) ≠ ".heif") →
      resolve_destination name = name) := by
  refine ⟨?_, ?_, ?_⟩
  · intro h
    have hsuf : fileSuffix name ≠ "" := by
      intro habs
      rw [habs, strLower_empty] at h
      rcases h with h | h <;> exact absurd h (by decide)
    have hstem := fileStem_ne_empty hsuf
    have hdst : resolve_destination name = fileStem name ++ ".png" := by
      unfold resolve_destination
      rw [if_pos h]
    exact ⟨hdst, by rw [hdst]; exact fileSuffix_stem_png hstem⟩
  · intro h
    have hsuf : fileSuffix name ≠ "" := by
      intro habs
      rw [habs, strLower_empty] at h
      rcases h with h | h <;> exact absurd h (by decide)
    have hstem := fileStem_ne_empty hsuf
    have h1 : ¬(strLower (fileSuffix name) = ".tif" ∨ strLower (fileSuffix name) = ".tiff") := by
      rcases h with h | h <;> rw [h] <;> decide
    have hdst : resolve_destination name = fileStem name ++ ".jpg" := by
      unfold resolve_destination
      rw [if_neg h1, if_pos h]
    exact ⟨hdst, by rw [hdst]; exact fileSuffix_stem_jpg hstem⟩
  · rintro ⟨h1, h2, h3, h4⟩
    unfold resolve_destination
    rw [if_neg (by tauto), if_neg (by tauto)]

/-- C6 witness: a TIFF original with an upper-case extension is remapped to
a `.png` output. -/
theorem resolve_destination_remap_witness :
    resolve_destination "photo.TIF" = fileStem "photo.TIF" ++ ".png" ∧
    fileSuffix (resolve_destination "photo.TIF") = ".png" :=
  (resolve_destination_remap "photo.TIF").1 (by decide)

/-- C2 counterexample: the catalog logical name `foo.jpg` yields output
basename `foo.jpg` when the exact original exists, but the year-suffixed
source `foo-2021.jpg` resolves for the same logical name and yields
output basename `foo-2021.jpg` — so the primary output basename is not a
function of the logical name and remap table alone. -/
theorem primaryBasename_depends_on_resolution :
    primaryBasename "foo.jpg" ["foo.jpg"] = some "foo.jpg" ∧
    primaryBasename "foo.jpg" ["foo-2021.jpg"] = some "foo-2021.jpg" ∧
    primaryBasename "foo.jpg" ["foo.jpg"] ≠ primaryBasename "foo.jpg" ["foo-2021.jpg"] :=
  ⟨by decide, by decide, by decide⟩

/-- C2 amended: the primary output basename is a deterministic function of
the resolved source's filename and the fixed remap table; when the exact
catalog filename is what resolves, it coincides with the remap of the
catalog logical name. -/
theorem primaryBasename_from_resolved_source (name src : String) (originals : List String)
    (h : find_original_image name originals = some src) :
    primaryBasename name originals = some (resolve_destination src) ∧
    (memStr name originals = true →
      primaryBasename name originals = some (resolve_destination name)) := by
  constructor
  · simp [primaryBasename, h]
  · intro hm
    have hx : find_original_image name originals = some name := by
      unfold find_original_image
      rw [if_pos hm]
    simp [primaryBasename, hx]

/-- C2 amended, witness: with the exact original present, `pic.tif` maps to
the remapped basename of the resolved (identical) source. -/
theorem primaryBasename_from_resolved_source_witness :
    primaryBasename "pic.tif" ["pic.tif"] = some (resolve_destination "pic.tif") ∧
    (memStr "pic.tif" ["pic.tif"] = true →
      primaryBasename "pic.tif" ["pic.tif"] = some (resolve_destination "pic.tif")) :=
  primaryBasename_from_resolved_source "pic.tif" "pic.tif" ["pic.tif"] (by decide)

/-- C7: for positive caps and images with positive dimensions,
`_resize_long_edge` returns dimensions whose longer edge is at most the
cap, returns an already-small image unchanged (no upscaling), keeps both
dimensions at least 1, and preserves the aspect ratio up to integer
rounding (each output dimension is within 1 of the exactly scaled
value). -/
theorem resize_long_edge_bounds (w h : ℕ) (maxEdge : ℤ)
    (hcap : 0 < maxEdge) (hw : 1 ≤ w) (hh : 1 ≤ h) :
    ((max (resize_long_edge w h maxEdge).1 (resize_long_edge w h maxEdge).2 : ℕ) : ℤ)
        ≤ maxEdge ∧
    (((max w h : ℕ) : ℤ) ≤ maxEdge → resize_long_edge w h maxEdge = (w, h)) ∧
    (1 ≤ (resize_long_edge w h maxEdge).1 ∧ 1 ≤ (resize_long_edge w h maxEdge).2) ∧
    (maxEdge < ((max w h : ℕ) : ℤ) →
      |(((resize_long_edge w h maxEdge).1 : ℕ) : ℚ) -
          (w : ℚ) * ((maxEdge : ℚ) / ((max w h : ℕ) : ℚ))| ≤ 1 ∧
      |(((resize_long_edge w h maxEdge).2 : ℕ) : ℚ) -
          (h : ℚ) * ((maxEdge : ℚ) / ((max w h : ℕ) : ℚ))| ≤ 1) := by
  have hcap' : ¬ maxEdge ≤ 0 := by omega
  by_cases hle : ((max w h : ℕ) : ℤ) ≤ maxEdge
  · have hr : resize_long_edge w h maxEdge = (w, h) := by
      unfold resize_long_edge
      rw [if_neg hcap', if_pos hle]
    rw [hr]
    exact ⟨hle, fun _ => rfl, ⟨hw, hh⟩, fun hgt => absurd hle (by omega)⟩
  · have hr : resize_long_edge w h maxEdge =
        (max 1 (pyRound ((w : ℚ) * ((maxEdge : ℚ) / ((max w h : ℕ) : ℚ)))).toNat,
          max 1 (pyRound ((h : ℚ) * ((maxEdge : ℚ) / ((max w h : ℕ) : ℚ)))).toNat) := by
      unfold resize_long_edge
      rw [if_neg hcap', if_neg hle]
    have hL : (0 : ℚ) < ((max w h : ℕ) : ℚ) := by
      have hp : 0 < max w h := lt_of_lt_of_le hw (le_max_left w h)
      exact_mod_cast hp
    have hM0 : (0 : ℚ) ≤ (maxEdge : ℚ) := by exact_mod_cast le_of_lt hcap
    have hscale0 : (0 : ℚ) ≤ (maxEdge : ℚ) / ((max w h : ℕ) : ℚ) :=
      div_nonneg hM0 (le_of_lt hL)
    have hwx0 : (0 : ℚ) ≤ (w : ℚ) * ((maxEdge : ℚ) / ((max w h : ℕ) : ℚ)) :=
      mul_nonneg (by positivity) hscale0
    have hhx0 : (0 : ℚ) ≤ (h : ℚ) * ((maxEdge : ℚ) / ((max w h : ℕ) : ℚ)) :=
      mul_nonneg (by positivity) hscale0
    have hwle : (w : ℚ) * ((maxEdge : ℚ) / ((max w h : ℕ) : ℚ)) ≤ (maxEdge : ℚ) := by
      rw [mul_div_assoc', div_le_iff₀ hL]
      have hwL : (w : ℚ) ≤ ((max w h : ℕ) : ℚ) := by exact_mod_cast le_max_left w h
      calc (w : ℚ) * (maxEdge : ℚ)
          ≤ ((max w h : ℕ) : ℚ) * (maxEdge : ℚ) := mul_le_mul_of_nonneg_right hwL hM0
        _ = (maxEdge : ℚ) * ((max w h : ℕ) : ℚ) := by ring
    have hhle : (h : ℚ) * ((maxEdge : ℚ) / ((max w h : ℕ) : ℚ)) ≤ (maxEdge : ℚ) := by
      rw [mul_div_assoc', div_le_iff₀ hL]
      have hhL : (h : ℚ) ≤ ((max w h : ℕ) : ℚ) := by exact_mod_cast le_max_right w h
      calc (h : ℚ) * (maxEdge : ℚ)
          ≤ ((max w h : ℕ) : ℚ) * (maxEdge : ℚ) := mul_le_mul_of_nonneg_right hhL hM0
        _ = (maxEdge : ℚ) * ((max w h : ℕ) : ℚ) := by ring
    have hone : (1 : ℤ) ≤ maxEdge := by omega
    have b1 := clampRound_le hwx0 hwle hone
    have b2 := clampRound_le hhx0 hhle hone
    rw [hr]
    refine ⟨?_, fun hcontra => absurd hcontra hle, ⟨le_max_left 1 _, le_max_left 1 _⟩,
      fun _ => ⟨clampRound_close hwx0, clampRound_close hhx0⟩⟩
    push_cast at b1 b2 ⊢
    omega

/-- C7 witness: a 4000×3000 source with cap 2400 resizes to 2400×1800 and
all four bounds hold there. -/
theorem resize_long_edge_bounds_witness :
    ((max (resize_long_edge 4000 3000 2400).1 (resize_long_edge 4000 3000 2400).2 : ℕ) : ℤ)
        ≤ 2400 ∧
    (((max 4000 3000 : ℕ) : ℤ) ≤ 2400 → resize_long_edge 4000 3000 2400 = (4000, 3000)) ∧
    (1 ≤ (resize_long_edge 4000 3000 2400).1 ∧ 1 ≤ (resize_long_edge 4000 3000 2400).2) ∧
    ((2400 : ℤ) < ((max 4000 3000 : ℕ) : ℤ) →
      |(((resize_long_edge 4000 3000 2400).1 : ℕ) : ℚ) -
          (4000 : ℚ) * (((2400 : ℤ) : ℚ) / ((max 4000 3000 : ℕ) : ℚ))| ≤ 1 ∧
      |(((resize_long_edge 4000 3000 2400).2 : ℕ) : ℚ) -
          (3000 : ℚ) * (((2400 : ℤ) : ℚ) / ((max 4000 3000 : ℕ) : ℚ))| ≤ 1) :=
  resize_long_edge_bounds 4000 3000 2400 (by decide) (by decide) (by decide)

/-- C8 counterexample: with a long text (`cxMetrics`, 10 pixels of width
per size point), angle 0 (so `|cos| = 1`, `|sin| = 0`), a 20×20 canvas
and margin fraction 0.06, no size down to the search floor fits, the
loop returns its initial `best = 10`, and the rotated bounding box at
the chosen size exceeds `(1 − 2·margin) × canvas_width` — refuting the
claim that the chosen size always satisfies the containment bound. -/
theorem fit_font_size_not_contained :
    fit_font_size cxMetrics 1 0 20 20 (6/100) = 10 ∧
    ¬ ((rotated_bbox (cxMetrics (fit_font_size cxMetrics 1 0 20 20 (6/100))).1
          (cxMetrics (fit_font_size cxMetrics 1 0 20 20 (6/100))).2 1 0).1
        ≤ (1 - 2 * (6/100)) * 20) := by
  constructor
  · with_unfolding_all decide
  · with_unfolding_all decide

/-- C8 amended: whenever the text at the search floor (font size 10)
already satisfies the fit test, the size chosen by `_fit_font_size` has a
rotated bounding box within `(1 − 2·margin_fraction) × canvas_width` and
`× canvas_height`, for every metrics function, rotation (given via
`|cos|`, `|sin|`), canvas size, and margin fraction in `[0, 1/2]`. -/
theorem fit_font_size_contained_of_min_fits
    (metrics : ℕ → ℚ × ℚ) (c s : ℚ) (canvasW canvasH : ℕ) (m : ℚ)
    (_hm0 : 0 ≤ m) (hm2 : m ≤ 1/2)
    (h10 : fitsAt metrics c s (truncQ ((canvasW : ℚ) * (1 - 2 * m)))
      (truncQ ((canvasH : ℚ) * (1 - 2 * m))) 10 = true) :
    (rotated_bbox (metrics (fit_font_size metrics c s canvasW canvasH m)).1
        (metrics (fit_font_size metrics c s canvasW canvasH m)).2 c s).1
      ≤ (1 - 2 * m) * (canvasW : ℚ) ∧
    (rotated_bbox (metrics (fit_font_size metrics c s canvasW canvasH m)).1
        (metrics (fit_font_size metrics c s canvasW canvasH m)).2 c s).2
      ≤ (1 - 2 * m) * (canvasH : ℚ) := by
  have hf : fitsAt metrics c s (truncQ ((canvasW : ℚ) * (1 - 2 * m)))
      (truncQ ((canvasH : ℚ) * (1 - 2 * m)))
      (fit_font_size metrics c s canvasW canvasH m) = true :=
    fitLoopFuel_fits _ _ _ _ _ h10
  have hp := of_decide_eq_true hf
  obtain ⟨hW, hH⟩ := hp
  have hxW : (0 : ℚ) ≤ (canvasW : ℚ) * (1 - 2 * m) :=
    mul_nonneg (by positivity) (by linarith)
  have hxH : (0 : ℚ) ≤ (canvasH : ℚ) * (1 - 2 * m) :=
    mul_nonneg (by positivity) (by linarith)
  constructor
  · calc (rotated_bbox (metrics (fit_font_size metrics c s canvasW canvasH m)).1
          (metrics (fit_font_size metrics c s canvasW canvasH m)).2 c s).1
        ≤ ((truncQ ((canvasW : ℚ) * (1 - 2 * m)) : ℤ) : ℚ) := hW
      _ ≤ (canvasW : ℚ) * (1 - 2 * m) := truncQ_le_self hxW
      _ = (1 - 2 * m) * (canvasW : ℚ) := by ring
  · calc (rotated_bbox (metrics (fit_font_size metrics c s canvasW canvasH m)).1
          (metrics (fit_font_size metrics c s canvasW canvasH m)).2 c s).2
        ≤ ((truncQ ((canvasH : ℚ) * (1 - 2 * m)) : ℤ) : ℚ) := hH
      _ ≤ (canvasH : ℚ) * (1 - 2 * m) := truncQ_le_self hxH
      _ = (1 - 2 * m) * (canvasH : ℚ) := by ring

/-- C8 amended, witness: a square text on a 100×100 canvas at margin 0.06;
size 10 fits, and the chosen size's rotated bounding box respects both
bounds. -/
theorem fit_font_size_contained_witness :
    (0 : ℚ) ≤ 6/100 ∧ ((6:ℚ)/100 ≤ 1/2) ∧
    fitsAt sqMetrics 1 0 (truncQ (((100 : ℕ) : ℚ) * (1 - 2 * (6/100))))
      (truncQ (((100 : ℕ) : ℚ) * (1 - 2 * (6/100)))) 10 = true ∧
    ((rotated_bbox (sqMetrics (fit_font_size sqMetrics 1 0 100 100 (6/100))).1
        (sqMetrics (fit_font_size sqMetrics 1 0 100 100 (6/100))).2 1 0).1
      ≤ (1 - 2 * (6/100)) * ((100 : ℕ) : ℚ) ∧
    (rotated_bbox (sqMetrics (fit_font_size sqMetrics 1 0 100 100 (6/100))).1
        (sqMetrics (fit_font_size sqMetrics 1 0 100 100 (6/100))).2 1 0).2
      ≤ (1 - 2 * (6/100)) * ((100 : ℕ) : ℚ)) :=
  ⟨by norm_num, by norm_num, by with_unfolding_all decide,
    fit_font_size_contained_of_min_fits sqMetrics 1 0 100 100 (6/100)
      (by norm_num) (by norm_num) (by with_unfolding_all decide)⟩

/-- C1 counterexample: a HEIC entry whose decode fails with the optional
decoder unavailable makes `_open_image` raise `SystemExit`, which the
loop's `except Exception` does not catch: the run aborts before the
summary and the failure is not counted — refuting the claim that this
case is caught inside the per-entry loop. -/
theorem generate_decoder_exit_aborts :
    (generate envHeicExit argsStd dfHeic).completed = false ∧
    (generate envHeicExit argsStd dfHeic).failed = 0 :=
  ⟨by decide, by decide⟩

/-- C1 amended: per-entry failures that raise ordinary exceptions during
decode, encode, or write are caught inside the loop, increment the
failed counter, and never abort: `generate` reaches its summary and
returns, with exit status 0 exactly when no entry failed.  (The
HEIC-decoder `SystemExit` case is excluded by the hypothesis.) -/
theorem generate_exception_failures_isolated (env : GenEnv) (args : GenArgs)
    (df : List (Option YamlVal)) (hs : ∀ r, env.build r ≠ BuildOutcome.sysExit) :
    (generate env args df).completed = true ∧
    (generate env args df).failed = (imagesOf df).countP (entryFails env args) ∧
    (generate env args df).exitCode =
      (if (imagesOf df).countP (entryFails env args) = 0 then 0 else 1) := by
  by_cases hemp : (imagesOf df).isEmpty = true
  · have hnil : imagesOf df = [] := by
      cases hq : imagesOf df with
      | nil => rfl
      | cons a l => rw [hq] at hemp; simp [List.isEmpty] at hemp
    unfold generate
    rw [if_pos hemp, hnil]
    simp
  · obtain ⟨h1, h2⟩ := foldl_aborted_failed env args hs (imagesOf df) initState rfl
    unfold generate
    rw [if_neg hemp]
    unfold mkResult
    rw [if_neg (by rw [h1]; simp)]
    refine ⟨rfl, ?_, ?_⟩
    · rw [h2]
      simp [initState]
    · rw [h2]
      simp [initState]

/-- C1 amended, witness: one entry failing with an ordinary exception is
counted and the run completes with exit status 1. -/
theorem generate_exception_failures_isolated_witness :
    (generate envHeicExn argsStd dfHeic).completed = true ∧
    (generate envHeicExn argsStd dfHeic).failed
      = (imagesOf dfHeic).countP (entryFails envHeicExn argsStd) ∧
    (generate envHeicExn argsStd dfHeic).exitCode =
      (if (imagesOf dfHeic).countP (entryFails envHeicExn argsStd) = 0 then 0 else 1) :=
  generate_exception_failures_isolated envHeicExn argsStd dfHeic (fun _ h => nomatch h)

/-- C3: the orphan-cleaning step of `generate` deletes a path only when the
clean flag is set, the path's extension (case-insensitively) is in the
recognized image-extension set, and the path is not in the expected-output
set accumulated during the run; it never deletes an expected path and
never deletes a file with an unrecognized extension. -/
theorem orphan_reaper_safety (env : GenEnv) (args : GenArgs) (df : List (Option YamlVal))
    (p : String) :
    (p ∈ (generate env args df).deleted →
      args.clean = true ∧ isCleanExt p = true ∧ p ∉ (generate env args df).expected) ∧
    (p ∈ (generate env args df).expected → p ∉ (generate env args df).deleted) ∧
    (isCleanExt p = false → p ∉ (generate env args df).deleted) := by
  have key : p ∈ (generate env args df).deleted →
      args.clean = true ∧ isCleanExt p = true ∧ p ∉ (generate env args df).expected := by
    unfold generate
    by_cases hemp : (imagesOf df).isEmpty = true
    · rw [if_pos hemp]
      intro hd
      simp at hd
    · rw [if_neg hemp]
      unfold mkResult
      by_cases hab : ((imagesOf df).foldl (processEntry env args) initState).aborted = true
      · rw [if_pos hab]
        intro hd
        simp at hd
      · rw [if_neg hab]
        intro hd
        by_cases hcl : args.clean = true
        · rw [if_pos hcl] at hd
          rw [List.mem_filter] at hd
          obtain ⟨hmem, hpred⟩ := hd
          rw [Bool.and_eq_true] at hpred
          obtain ⟨hext, hnot⟩ := hpred
          rw [Bool.not_eq_true'] at hnot
          refine ⟨hcl, hext, ?_⟩
          intro habs
          have hmm := memStr_iff.mpr habs
          rw [hnot] at hmm
          simp at hmm
        · rw [if_neg hcl] at hd
          simp at hd
  refine ⟨key, ?_, ?_⟩
  · intro hexp hd
    exact absurd hexp (key hd).2.2
  · intro hext hd
    have hx := (key hd).2.1
    rw [hext] at hx
    simp at hx

/-- C3 witness: a run whose expected set is empty deletes the orphan image
`orphan.jpg`, and the safety conditions hold for it. -/
theorem orphan_reaper_safety_witness :
    "orphan.jpg" ∈ (generate envOrphan argsClean dfMissing).deleted ∧
    (argsClean.clean = true ∧ isCleanExt "orphan.jpg" = true ∧
      "orphan.jpg" ∉ (generate envOrphan argsClean dfMissing).expected) :=
  ⟨by decide, (orphan_reaper_safety envOrphan argsClean dfMissing "orphan.jpg").1 (by decide)⟩

/-- C9: the inventory step collects exactly the non-empty stripped `image`
string values of record-list data files, de-duplicates them, and hands
them to the loop in sorted order; an absent data file or one whose
contents are not a list contributes zero entries, and prepending such a
file to the data-file list leaves the whole run unchanged. -/
theorem inventory_collects_sorted_dedup :
    (∀ (df : List (Option YamlVal)) (s : String),
      s ∈ imagesOf df ↔ ∃ f ∈ df, s ∈ iter_gallery_images f) ∧
    (∀ df : List (Option YamlVal), (imagesOf df).Pairwise strLeP) ∧
    (∀ df : List (Option YamlVal), (imagesOf df).Nodup) ∧
    iter_gallery_images none = [] ∧
    (∀ v : YamlVal, isYList v = false → iter_gallery_images (some v) = []) ∧
    (∀ (items : List YamlVal) (s : String),
      s ∈ iter_gallery_images (some (YamlVal.vList items)) ↔
        ∃ it ∈ items, entryImage it = some s) ∧
    (∀ (env : GenEnv) (args : GenArgs) (f : Option YamlVal) (df : List (Option YamlVal)),
      iter_gallery_images f = [] → generate env args (f :: df) = generate env args df) := by
  refine ⟨?_, ?_, ?_, rfl, ?_, ?_, ?_⟩
  · intro df s
    rw [mem_imagesOf, mem_collectImages df]
  · intro df
    exact sortStrings_sorted _
  · intro df
    exact sortStrings_nodup (List.nodup_dedup _)
  · intro v hv
    cases v with
    | vList l => simp [isYList] at hv
    | vStr t => rfl
    | vDict kvs => rfl
    | vOther => rfl
  · intro items s
    exact mem_itemsImages items
  · intro env args f df hf
    have hc : collectImages (f :: df) = collectImages df := by
      simp [collectImages, hf]
    unfold generate
    rw [show imagesOf (f :: df) = imagesOf df from by unfold imagesOf; rw [hc]]

/-- C9 witness: a data file whose document is not a list contributes no
entries, and prepending it to a run's data files leaves the run
unchanged. -/
theorem inventory_witness :
    iter_gallery_images (some (YamlVal.vStr "oops")) = [] ∧
    generate envInv argsStd (some (YamlVal.vStr "oops") :: []) = generate envInv argsStd [] :=
  ⟨inventory_collects_sorted_dedup.2.2.2.2.1 (YamlVal.vStr "oops") rfl,
    inventory_collects_sorted_dedup.2.2.2.2.2.2 envInv argsStd (some (YamlVal.vStr "oops")) []
      rfl⟩

/-- C10: an entry under `images/` whose source resolution fails, when not
forced and a file with the entry's catalog basename already exists in the
output directory, is counted as skipped — the state is unchanged except
`skipped += 1`, so in particular the pre-existing output path is not
added to the expected set — and a cleaning run deletes that file as an
orphan whenever it is still present with a recognized image extension and
no other entry expects it. -/
theorem missing_source_prior_output_skipped_then_reaped
    (env : GenEnv) (args : GenArgs) (df : List (Option YamlVal)) (e : String)
    (hforce : args.force = false)
    (hstart : strStarts (to_repo_rel e) "images/" = true)
    (hres : find_original_image (pathName (to_repo_rel e)) env.originals = none)
    (hout : env.outExists (pathName (to_repo_rel e)) = true) :
    (∀ st : GenState, st.aborted = false →
      processEntry env args st e = { st with skipped := st.skipped + 1 }) ∧
    (args.clean = true → (∀ r, env.build r ≠ BuildOutcome.sysExit) →
      e ∈ imagesOf df →
      pathName (to_repo_rel e) ∉ (generate env args df).expected →
      pathName (to_repo_rel e) ∈ env.finalTree →
      isCleanExt (pathName (to_repo_rel e)) = true →
      pathName (to_repo_rel e) ∈ (generate env args df).deleted) := by
  have hfirst : firstPartIsImages (to_repo_rel e) = true := by
    unfold firstPartIsImages
    rw [hstart]
    simp
  have hcls : classifyEntry env args e = EntryStep.skipExisting := by
    simp [classifyEntry, hfirst, hres, hstart, hforce, hout]
  constructor
  · intro st hab
    simp [processEntry, hab, hcls, applyStep]
  · intro hclean hs he hexp hfin hext
    obtain ⟨hab, _⟩ := foldl_aborted_failed env args hs (imagesOf df) initState rfl
    have hemp : ¬ ((imagesOf df).isEmpty = true) := by
      cases hq : imagesOf df with
      | nil => rw [hq] at he; cases he
      | cons a l => simp [List.isEmpty]
    have hgen : generate env args df
        = mkResult args env ((imagesOf df).foldl (processEntry env args) initState) := by
      unfold generate
      rw [if_neg hemp]
    have hexp' : memStr (pathName (to_repo_rel e))
        ((imagesOf df).foldl (processEntry env args) initState).expected = false := by
      apply memStr_eq_false
      intro habs
      apply hexp
      rw [hgen]
      unfold mkResult
      rw [if_neg (by rw [hab]; simp)]
      exact habs
    rw [hgen]
    unfold mkResult
    rw [if_neg (by rw [hab]; simp)]
    show pathName (to_repo_rel e) ∈
      (if args.clean then
        (sortStrings env.finalTree).filter
          (fun p => isCleanExt p &&
            !(memStr p ((imagesOf df).foldl (processEntry env args) initState).expected))
      else [])
    rw [if_pos hclean, List.mem_filter]
    refine ⟨mem_sortStrings.mpr hfin, ?_⟩
    rw [hext, hexp']
    rfl

/-- C10 witness: the entry `images/stale.jpg` with no source but a
pre-existing `stale.jpg` output is skipped without being recorded, and
the cleaning pass deletes `stale.jpg`. -/
theorem missing_source_witness :
    processEntry envStale argsClean initState "images/stale.jpg"
        = { initState with skipped := initState.skipped + 1 } ∧
    pathName (to_repo_rel "images/stale.jpg") ∈ (generate envStale argsClean dfStale).deleted :=
  ⟨(missing_source_prior_output_skipped_then_reaped envStale argsClean dfStale "images/stale.jpg"
      (by decide) (by decide) (by decide) (by decide)).1 initState rfl,
    (missing_source_prior_output_skipped_then_reaped envStale argsClean dfStale "images/stale.jpg"
      (by decide) (by decide) (by decide) (by decide)).2 rfl (fun _ h => nomatch h) (by decide)
      (by decide) (by decide) (by decide)⟩

end WG
